import Mathlib

/-!
Verification of the safe expression evaluator and persisted-history
calculator of `toolkit_cli.py`.

The embedding follows the source:
* `safe_eval` (toolkit_cli.py:373-379): compile the string in eval mode,
  reject any name of the top-level code object (`co_names`) outside
  `SAFE_NAMES`, then evaluate with globals `{"__builtins__": {}}` and
  locals `SAFE_NAMES`.
* `Calculator` (toolkit_cli.py:381-407): `_load`/`_save`/`eval`/`list`.

Python values are modelled by `PyVal`; machine floats are modelled as exact
rationals (every claim checked here only exercises values on which IEEE
doubles and exact rationals agree, e.g. `round(3.6) = 4`).  The host
parser (`compile` in eval mode) is modelled on the fragment of Python's
expression grammar the claims exercise: numeric literals, identifiers,
unary `+ -`, binary `+ - * / // % **`, parentheses, calls, attribute
access and `lambda`.
-/

/-- Tokens of the modelled fragment of Python's expression grammar. -/
inductive Tok where
  | intTok (n : ℕ)
  | fltTok (q : ℚ)
  | ident (s : String)
  | plus | minus | star | dstar | slash | dslash | percent
  | lparen | rparen | comma | dot | colon
  deriving Repr

/-- Leading run of decimal digits, with the rest of the input. -/
def takeDigits : List Char → List Char × List Char
  | [] => ([], [])
  | c :: cs =>
    if c.isDigit then
      let (d, r) := takeDigits cs
      (c :: d, r)
    else ([], c :: cs)

/-- Identifier characters: letters, digits, underscore. -/
def isIdChar (c : Char) : Bool := c.isAlpha || c.isDigit || c = '_'

/-- Characters that may start an identifier. -/
def isIdStart (c : Char) : Bool := c.isAlpha || c = '_'

/-- Leading run of identifier characters, with the rest of the input. -/
def takeIdent : List Char → List Char × List Char
  | [] => ([], [])
  | c :: cs =>
    if isIdChar c then
      let (d, r) := takeIdent cs
      (c :: d, r)
    else ([], c :: cs)

/-- Value of a digit string. -/
def digitsVal (ds : List Char) : ℕ :=
  ds.foldl (fun a c => 10 * a + (c.toNat - 48)) 0

/-- Rational value of an integer part and a fractional digit string
(a decimal float literal, modelled exactly). -/
def floatLitVal (ip : List Char) (fp : List Char) : ℚ :=
  (digitsVal ip : ℚ) + (digitsVal fp : ℚ) / (10 : ℚ) ^ fp.length

/-- Fueled lexer over the character list.  Unknown characters (such as `=`)
are lexical errors, as in CPython. -/
def lexF : ℕ → List Char → Except Unit (List Tok)
  | 0, _ => .error ()
  | _ + 1, [] => .ok []
  | f + 1, c :: cs =>
    if c = ' ' then lexF f cs
    else if c.isDigit then
      let (ip, r) := takeDigits (c :: cs)
      match r with
      | '.' :: r2 =>
        let (fp, r3) := takeDigits r2
        do pure (.fltTok (floatLitVal ip fp) :: (← lexF f r3))
      | _ => do pure (.intTok (digitsVal ip) :: (← lexF f r))
    else if isIdStart c then
      let (idc, r) := takeIdent (c :: cs)
      do pure (.ident (String.mk idc) :: (← lexF f r))
    else if c = '*' then
      match cs with
      | '*' :: r => do pure (.dstar :: (← lexF f r))
      | _ => do pure (.star :: (← lexF f cs))
    else if c = '/' then
      match cs with
      | '/' :: r => do pure (.dslash :: (← lexF f r))
      | _ => do pure (.slash :: (← lexF f cs))
    else if c = '+' then do pure (.plus :: (← lexF f cs))
    else if c = '-' then do pure (.minus :: (← lexF f cs))
    else if c = '%' then do pure (.percent :: (← lexF f cs))
    else if c = '(' then do pure (.lparen :: (← lexF f cs))
    else if c = ')' then do pure (.rparen :: (← lexF f cs))
    else if c = ',' then do pure (.comma :: (← lexF f cs))
    else if c = '.' then do pure (.dot :: (← lexF f cs))
    else if c = ':' then do pure (.colon :: (← lexF f cs))
    else .error ()

/-- Lex a whole string. -/
def lexStr (s : String) : Except Unit (List Tok) :=
  lexF (s.length + 1) s.data

/-- Binary operators of the fragment. -/
inductive BOp where
  | add | sub | mul | div | fdiv | mod | pow
  deriving Repr

/-- Unary operators of the fragment. -/
inductive UOp where
  | neg | pos
  deriving Repr

/-- Abstract expression tree produced by eval-mode compilation (the AST the
host parser builds for a Python expression, on the modelled fragment). -/
inductive PExp where
  | num (n : ℤ)
  | fnum (q : ℚ)
  | name (s : String)
  | unop (u : UOp) (a : PExp)
  | binop (o : BOp) (a : PExp) (b : PExp)
  | call (f : PExp) (args : List PExp)
  | attr (a : PExp) (fld : String)
  | lam (params : List String) (body : PExp)
  deriving Repr

/-- Lambda parameter list: identifiers separated by commas, possibly empty,
stopping before the colon. -/
def pParams : List Tok → List String × List Tok
  | .ident x :: .comma :: rest =>
    let (ps, r) := pParams rest
    (x :: ps, r)
  | .ident x :: rest => ([x], rest)
  | rest => ([], rest)

mutual

/-- Full expression: a lambda or an additive chain. -/
def pExpr : ℕ → List Tok → Except Unit (PExp × List Tok)
  | 0, _ => .error ()
  | f + 1, .ident "lambda" :: rest =>
    match pParams rest with
    | (ps, .colon :: r2) => do
      let (b, r3) ← pExpr f r2
      pure (.lam ps b, r3)
    | _ => .error ()
  | f + 1, ts => pAdd f ts

/-- Additive level: `term (("+"|"-") term)*`. -/
def pAdd : ℕ → List Tok → Except Unit (PExp × List Tok)
  | 0, _ => .error ()
  | f + 1, ts => do
    let (a, r) ← pMul f ts
    pAddLoop f a r

/-- Loop of the additive level. -/
def pAddLoop : ℕ → PExp → List Tok → Except Unit (PExp × List Tok)
  | 0, _, _ => .error ()
  | f + 1, acc, .plus :: r => do
    let (b, r2) ← pMul f r
    pAddLoop f (.binop .add acc b) r2
  | f + 1, acc, .minus :: r => do
    let (b, r2) ← pMul f r
    pAddLoop f (.binop .sub acc b) r2
  | _ + 1, acc, ts => .ok (acc, ts)

/-- Multiplicative level: `factor (("*"|"/"|"//"|"%") factor)*`. -/
def pMul : ℕ → List Tok → Except Unit (PExp × List Tok)
  | 0, _ => .error ()
  | f + 1, ts => do
    let (a, r) ← pFactor f ts
    pMulLoop f a r

/-- Loop of the multiplicative level. -/
def pMulLoop : ℕ → PExp → List Tok → Except Unit (PExp × List Tok)
  | 0, _, _ => .error ()
  | f + 1, acc, .star :: r => do
    let (b, r2) ← pFactor f r
    pMulLoop f (.binop .mul acc b) r2
  | f + 1, acc, .slash :: r => do
    let (b, r2) ← pFactor f r
    pMulLoop f (.binop .div acc b) r2
  | f + 1, acc, .dslash :: r => do
    let (b, r2) ← pFactor f r
    pMulLoop f (.binop .fdiv acc b) r2
  | f + 1, acc, .percent :: r => do
    let (b, r2) ← pFactor f r
    pMulLoop f (.binop .mod acc b) r2
  | _ + 1, acc, ts => .ok (acc, ts)

/-- Unary level: `("+"|"-") factor | power`; unary minus binds looser than
`**`, as in Python (`-2**2 = -(2**2)`). -/
def pFactor : ℕ → List Tok → Except Unit (PExp × List Tok)
  | 0, _ => .error ()
  | f + 1, .minus :: r => do
    let (a, r2) ← pFactor f r
    pure (.unop .neg a, r2)
  | f + 1, .plus :: r => do
    let (a, r2) ← pFactor f r
    pure (.unop .pos a, r2)
  | f + 1, ts => pPow f ts

/-- Power level: `trailer ["**" factor]`, right-associative. -/
def pPow : ℕ → List Tok → Except Unit (PExp × List Tok)
  | 0, _ => .error ()
  | f + 1, ts => do
    let (a, r) ← pTrail f ts
    match r with
    | .dstar :: r2 => do
      let (b, r3) ← pFactor f r2
      pure (.binop .pow a b, r3)
    | _ => .ok (a, r)

/-- Trailer level: an atom followed by call and attribute-access suffixes. -/
def pTrail : ℕ → List Tok → Except Unit (PExp × List Tok)
  | 0, _ => .error ()
  | f + 1, ts => do
    let (a, r) ← pAtom f ts
    pTrailLoop f a r

/-- Loop of the trailer level. -/
def pTrailLoop : ℕ → PExp → List Tok → Except Unit (PExp × List Tok)
  | 0, _, _ => .error ()
  | f + 1, acc, .lparen :: .rparen :: r => pTrailLoop f (.call acc []) r
  | f + 1, acc, .lparen :: r => do
    let (args, r2) ← pArgs f r
    match r2 with
    | .rparen :: r3 => pTrailLoop f (.call acc args) r3
    | _ => .error ()
  | f + 1, acc, .dot :: .ident fld :: r => pTrailLoop f (.attr acc fld) r
  | _ + 1, acc, ts => .ok (acc, ts)

/-- Non-empty argument list: `expr ("," expr)*`. -/
def pArgs : ℕ → List Tok → Except Unit (List PExp × List Tok)
  | 0, _ => .error ()
  | f + 1, ts => do
    let (a, r) ← pExpr f ts
    match r with
    | .comma :: r2 => do
      let (rest, r3) ← pArgs f r2
      pure (a :: rest, r3)
    | _ => .ok ([a], r)

/-- Atoms: literals, identifiers, parenthesized expressions. -/
def pAtom : ℕ → List Tok → Except Unit (PExp × List Tok)
  | 0, _ => .error ()
  | _ + 1, .intTok n :: r => .ok (.num (n : ℤ), r)
  | _ + 1, .fltTok q :: r => .ok (.fnum q, r)
  | f + 1, .lparen :: r => do
    let (a, r2) ← pExpr f r
    match r2 with
    | .rparen :: r3 => .ok (a, r3)
    | _ => .error ()
  | _ + 1, .ident "lambda" :: _ => .error ()
  | _ + 1, .ident s :: r => .ok (.name s, r)
  | _ + 1, _ => .error ()

end

/-- Model of `compile(expr, "<expr>", "eval")` on the fragment: lex, parse a
single expression, require all input consumed. -/
def parseExprS (s : String) : Except Unit PExp := do
  let ts ← lexStr s
  let (e, r) ← pExpr (8 * (ts.length + 1)) ts
  match r with
  | [] => pure e
  | _ => .error ()

mutual

/-- Names of the top-level code object (`code.co_names`): identifiers
referenced outside any nested `lambda` body, in first-use order, including
names used as call targets and attribute names (`LOAD_ATTR` also records
its name in `co_names`).  A nested lambda compiles to a separate code
object, so names occurring only in its body do not appear here. -/
def coNames : PExp → List String
  | .num _ => []
  | .fnum _ => []
  | .name s => [s]
  | .unop _ a => coNames a
  | .binop _ a b => coNames a ++ coNames b
  | .call f args => coNames f ++ coNamesL args
  | .attr a fld => coNames a ++ [fld]
  | .lam _ _ => []

/-- `coNames` over an argument list. -/
def coNamesL : List PExp → List String
  | [] => []
  | e :: es => coNames e ++ coNamesL es

end

mutual

/-- All identifiers referenced anywhere in the parsed tree, including inside
nested lambda bodies (lambda parameters are binders, not references). -/
def treeNames : PExp → List String
  | .num _ => []
  | .fnum _ => []
  | .name s => [s]
  | .unop _ a => treeNames a
  | .binop _ a b => treeNames a ++ treeNames b
  | .call f args => treeNames f ++ treeNamesL args
  | .attr a fld => treeNames a ++ [fld]
  | .lam _ b => treeNames b

/-- `treeNames` over an argument list. -/
def treeNamesL : List PExp → List String
  | [] => []
  | e :: es => treeNames e ++ treeNamesL es

end

/-- The callable entries of `SAFE_NAMES`: `abs`, `round`, `min`, `max`
(added explicitly by the source) and the public functions of the `math`
module (added via `dir(math)`). -/
inductive BName where
  | babs | bround | bmin | bmax
  | mfn (s : String)
  deriving Repr

/-- Python runtime values of the modelled fragment.  Floats are exact
rationals; `inf`/`nan` are separate constructors.  `closure` records the
lambda's parameters, body and captured chain of enclosing function
scopes. -/
inductive PyVal where
  | int (n : ℤ)
  | float (q : ℚ)
  | str (s : String)
  | bool (b : Bool)
  | pynone
  | inf (neg : Bool)
  | nan
  | list (l : List PyVal)
  | dict (l : List (String × PyVal))
  | builtin (b : BName)
  | closure (params : List String) (body : PExp) (env : List (List (String × PyVal)))
  deriving Repr

/-- Python exceptions of the modelled fragment; `unmodeled` marks the
boundary of the fragment (evaluation steps whose outcome the model does
not commit to), never a claim's verdict. -/
inductive PyErr where
  | synErr
  | nameErr (n : String)
  | typeErr
  | zeroDivErr
  | valueErr
  | overflowErr
  | osErr
  | unmodeled
  | noFuel
  deriving Repr, DecidableEq

/-- Public names of the `math` module that are functions (CPython 3.11's
`dir(math)` without the underscore-prefixed names and without the five
numeric constants listed separately in `safeLookup`). -/
def mathFnNames : List String :=
  ["acos", "acosh", "asin", "asinh", "atan", "atan2", "atanh", "cbrt",
   "ceil", "comb", "copysign", "cos", "cosh", "degrees", "dist", "erf",
   "erfc", "exp", "exp2", "expm1", "fabs", "factorial", "floor", "fmod",
   "frexp", "fsum", "gamma", "gcd", "hypot", "isclose", "isfinite",
   "isinf", "isnan", "isqrt", "lcm", "ldexp", "lgamma", "log", "log10",
   "log1p", "log2", "modf", "nextafter", "perm", "pow", "prod", "radians",
   "remainder", "sin", "sinh", "sqrt", "tan", "tanh", "trunc", "ulp"]

/-- The value of `math.pi` (the exact rational value of the IEEE double). -/
def piQ : ℚ := (884279719003555 : ℚ) / (281474976710656 : ℚ)

/-- The value of `math.e` (the exact rational value of the IEEE double). -/
def eulerQ : ℚ := (6121026514868073 : ℚ) / (2251799813685248 : ℚ)

/-- The value of `math.tau` (the exact rational value of the IEEE double). -/
def tauQ : ℚ := (884279719003555 : ℚ) / (140737488355328 : ℚ)

/-- The `SAFE_NAMES` dict (toolkit_cli.py:365-371): every public `math`
name, then `abs`, `round`, `min`, `max`. -/
def safeLookup (n : String) : Option PyVal :=
  if n = "abs" then some (.builtin .babs)
  else if n = "round" then some (.builtin .bround)
  else if n = "min" then some (.builtin .bmin)
  else if n = "max" then some (.builtin .bmax)
  else if n = "pi" then some (.float piQ)
  else if n = "e" then some (.float eulerQ)
  else if n = "tau" then some (.float tauQ)
  else if n = "inf" then some (.inf false)
  else if n = "nan" then some .nan
  else if mathFnNames.contains n then some (.builtin (.mfn n))
  else none

/-- Membership in `SAFE_NAMES` (the pre-check's `name not in SAFE_NAMES`). -/
def isSafeName (n : String) : Bool := (safeLookup n).isSome

/-- Name lookup through a chain of function scopes (innermost first). -/
def lookupChain : List (List (String × PyVal)) → String → Option PyVal
  | [], _ => none
  | sc :: rest, n =>
    match sc.lookup n with
    | some v => some v
    | none => lookupChain rest n

/-- The global fallback of every lookup: the globals dict passed to `eval`
is `{"__builtins__": {}}` and the builtins dict is therefore empty, so the
only resolvable global is `__builtins__` itself, bound to the empty dict;
every other name raises `NameError`. -/
def globalFallback (n : String) : Except PyErr PyVal :=
  if n = "__builtins__" then .ok (.dict []) else .error (.nameErr n)

/-- `LOAD_NAME` at the top level of the evaluated expression: the locals
dict (`SAFE_NAMES`), then the globals/builtins fallback. -/
def lookupTopName (n : String) : Except PyErr PyVal :=
  match safeLookup n with
  | some v => .ok v
  | none => globalFallback n

/-- Name lookup inside a lambda body: parameters and captured enclosing
function scopes, then the globals/builtins fallback.  `SAFE_NAMES` is the
locals dict of the `eval` call only, not a function scope, so it is not
consulted here. -/
def lookupFnName (env : List (List (String × PyVal))) (n : String) : Except PyErr PyVal :=
  match lookupChain env n with
  | some v => .ok v
  | none => globalFallback n

/-- Numeric views: integer-like values (`int` and `bool`). -/
def pyToZ : PyVal → Option ℤ
  | .int n => some n
  | .bool b => some (if b then 1 else 0)
  | _ => none

/-- Numeric views: finite numeric values as rationals. -/
def pyToQ : PyVal → Option ℚ
  | .int n => some (n : ℚ)
  | .float q => some q
  | .bool b => some (if b then 1 else 0)
  | _ => none

/-- Classification of numeric values for comparisons. -/
inductive NumC where
  | fin (q : ℚ)
  | pinf
  | ninf
  | nanC

/-- Numeric classification, `none` for non-numeric values. -/
def numClass : PyVal → Option NumC
  | .int n => some (.fin (n : ℚ))
  | .float q => some (.fin q)
  | .bool b => some (.fin (if b then 1 else 0))
  | .inf neg => some (if neg then .ninf else .pinf)
  | .nan => some .nanC
  | _ => none

/-- Python `<` on numeric classifications: any comparison involving `nan`
is `False`. -/
def ltN : NumC → NumC → Bool
  | .nanC, _ => false
  | _, .nanC => false
  | .ninf, .ninf => false
  | .ninf, _ => true
  | _, .ninf => false
  | _, .pinf => true
  | .pinf, _ => false
  | .fin a, .fin b => decide (a < b)

/-- Python `a < b` on modelled values: numeric comparison, or string
comparison; `none` is a `TypeError`. -/
def ltV (a b : PyVal) : Option Bool :=
  match a, b with
  | .str x, .str y => some (decide (x < y))
  | _, _ =>
    match numClass a, numClass b with
    | some ca, some cb => some (ltN ca cb)
    | _, _ => none

/-- Python's banker's rounding of a rational to an integer
(round-half-to-even, the semantics of one-argument `round`). -/
def roundHalfEven (q : ℚ) : ℤ :=
  let fl := q.floor
  let fr := q - (fl : ℚ)
  if fr < 1 / 2 then fl
  else if 1 / 2 < fr then fl + 1
  else if fl % 2 = 0 then fl else fl + 1

/-- Unary operator semantics. -/
def applyUnop : UOp → PyVal → Except PyErr PyVal
  | .neg, .int n => .ok (.int (-n))
  | .neg, .float q => .ok (.float (-q))
  | .neg, .bool b => .ok (.int (-(if b then 1 else 0)))
  | .neg, .inf s => .ok (.inf (!s))
  | .neg, .nan => .ok .nan
  | .neg, _ => .error .typeErr
  | .pos, .int n => .ok (.int n)
  | .pos, .float q => .ok (.float q)
  | .pos, .bool b => .ok (.int (if b then 1 else 0))
  | .pos, .inf s => .ok (.inf s)
  | .pos, .nan => .ok .nan
  | .pos, _ => .error .typeErr

/-- Binary operator semantics on the modelled fragment: exact arithmetic on
`int`/`bool`/`float`, string concatenation for `+`, Python's
floor-division and sign-of-divisor modulo, `ZeroDivisionError` on zero
divisors, float power only for integral exponents.  Combinations the model
does not commit to (arithmetic on `inf`/`nan`, fractional exponents, ...)
yield `unmodeled`. -/
def applyBinop : BOp → PyVal → PyVal → Except PyErr PyVal
  | .add, .str x, .str y => .ok (.str (x ++ y))
  | o, a, b =>
    match pyToZ a, pyToZ b with
    | some za, some zb =>
      match o with
      | .add => .ok (.int (za + zb))
      | .sub => .ok (.int (za - zb))
      | .mul => .ok (.int (za * zb))
      | .div => if zb = 0 then .error .zeroDivErr else .ok (.float ((za : ℚ) / (zb : ℚ)))
      | .fdiv => if zb = 0 then .error .zeroDivErr else .ok (.int (Int.fdiv za zb))
      | .mod => if zb = 0 then .error .zeroDivErr else .ok (.int (Int.fmod za zb))
      | .pow =>
        if 0 ≤ zb then .ok (.int (za ^ zb.toNat))
        else if za = 0 then .error .zeroDivErr
        else .ok (.float ((za : ℚ) ^ zb))
    | _, _ =>
      match pyToQ a, pyToQ b with
      | some qa, some qb =>
        match o with
        | .add => .ok (.float (qa + qb))
        | .sub => .ok (.float (qa - qb))
        | .mul => .ok (.float (qa * qb))
        | .div => if qb = 0 then .error .zeroDivErr else .ok (.float (qa / qb))
        | .fdiv => if qb = 0 then .error .zeroDivErr else .ok (.float ((qa / qb).floor : ℚ))
        | .mod =>
          if qb = 0 then .error .zeroDivErr
          else .ok (.float (qa - qb * ((qa / qb).floor : ℚ)))
        | .pow =>
          match pyToZ b, b with
          | some zb, _ =>
            if qa = 0 ∧ zb < 0 then .error .zeroDivErr else .ok (.float (qa ^ zb))
          | none, .float qe =>
            if qe.den = 1 then
              (if qa = 0 ∧ qe.num < 0 then .error .zeroDivErr else .ok (.float (qa ^ qe.num)))
            else .error .unmodeled
          | _, _ => .error .unmodeled
      | _, _ =>
        match numClass a, numClass b with
        | some _, some _ => .error .unmodeled
        | _, _ => .error .typeErr

/-- Fold of Python's `min`/`max` over arguments: keep the first extremal
value (replace the current one only on strict comparison). -/
def minMaxFold (isMin : Bool) : PyVal → List PyVal → Except PyErr PyVal
  | cur, [] => .ok cur
  | cur, n :: rest =>
    match (if isMin then ltV n cur else ltV cur n) with
    | some true => minMaxFold isMin n rest
    | some false => minMaxFold isMin cur rest
    | none => .error .typeErr

/-- Python `min`/`max`: with one argument an iterable (empty iterable is a
`ValueError`), with two or more arguments the extremum of the arguments. -/
def pyMinMax (isMin : Bool) : List PyVal → Except PyErr PyVal
  | [] => .error .typeErr
  | [.list []] => .error .valueErr
  | [.list (x :: xs)] => minMaxFold isMin x xs
  | [.str s] =>
    match s.data with
    | [] => .error .valueErr
    | c :: cs => minMaxFold isMin (.str (String.mk [c])) (cs.map fun d => .str (String.mk [d]))
  | [_] => .error .typeErr
  | x :: rest => minMaxFold isMin x rest

/-- Semantics of the `math` functions with exact integer results on the
modelled fragment (`floor`, `ceil`, `trunc`, `fabs`); the remaining math
functions are float-valued transcendentals whose results the model does
not commit to (`unmodeled`) — no claim depends on them. -/
def applyMath : String → List PyVal → Except PyErr PyVal
  | "floor", [.int n] => .ok (.int n)
  | "floor", [.bool b] => .ok (.int (if b then 1 else 0))
  | "floor", [.float q] => .ok (.int q.floor)
  | "floor", [_] => .error .typeErr
  | "ceil", [.int n] => .ok (.int n)
  | "ceil", [.bool b] => .ok (.int (if b then 1 else 0))
  | "ceil", [.float q] => .ok (.int q.ceil)
  | "ceil", [_] => .error .typeErr
  | "trunc", [.int n] => .ok (.int n)
  | "trunc", [.bool b] => .ok (.int (if b then 1 else 0))
  | "trunc", [.float q] => .ok (.int (q.num.sign * (|q.num| / (q.den : ℤ))))
  | "trunc", [_] => .error .typeErr
  | "fabs", [.int n] => .ok (.float (|n| : ℚ))
  | "fabs", [.bool b] => .ok (.float (if b then 1 else 0))
  | "fabs", [.float q] => .ok (.float |q|)
  | "fabs", [.inf _] => .ok (.inf false)
  | "fabs", [.nan] => .ok .nan
  | "fabs", [_] => .error .typeErr
  | _, _ => .error .unmodeled

/-- Semantics of the callable allow-list entries. -/
def applyB : BName → List PyVal → Except PyErr PyVal
  | .babs, [.int n] => .ok (.int |n|)
  | .babs, [.float q] => .ok (.float |q|)
  | .babs, [.bool b] => .ok (.int (if b then 1 else 0))
  | .babs, [.inf _] => .ok (.inf false)
  | .babs, [.nan] => .ok .nan
  | .babs, [_] => .error .typeErr
  | .babs, _ => .error .typeErr
  | .bround, [.int n] => .ok (.int n)
  | .bround, [.bool b] => .ok (.int (if b then 1 else 0))
  | .bround, [.float q] => .ok (.int (roundHalfEven q))
  | .bround, [.inf _] => .error .overflowErr
  | .bround, [.nan] => .error .valueErr
  | .bround, [_] => .error .typeErr
  | .bround, [_, _] => .error .unmodeled
  | .bround, _ => .error .typeErr
  | .bmin, vs => pyMinMax true vs
  | .bmax, vs => pyMinMax false vs
  | .mfn s, vs => applyMath s vs

mutual

/-- The evaluation performed by `eval(code, {"__builtins__": {}}, SAFE_NAMES)`
on the modelled fragment.  `top` is true at the top level of the expression
(where `LOAD_NAME` consults the locals dict `SAFE_NAMES`) and false inside
a lambda body (where names resolve through the parameter scopes and then
the globals/builtins fallback only).  `env` is the chain of enclosing
function scopes.  Fuel bounds call nesting; exhaustion is `noFuel` (a
nonterminating Python evaluation has no observable result). -/
def evalE : ℕ → List (List (String × PyVal)) → Bool → PExp → Except PyErr PyVal
  | 0, _, _, _ => .error .noFuel
  | _ + 1, _, _, .num n => .ok (.int n)
  | _ + 1, _, _, .fnum q => .ok (.float q)
  | _ + 1, env, top, .name s => if top then lookupTopName s else lookupFnName env s
  | f + 1, env, top, .unop u a => do
    let v ← evalE f env top a
    applyUnop u v
  | f + 1, env, top, .binop o a b => do
    let va ← evalE f env top a
    let vb ← evalE f env top b
    applyBinop o va vb
  | _ + 1, env, top, .lam ps body => .ok (.closure ps body (if top then [] else env))
  | f + 1, env, top, .attr a _ => do
    let _ ← evalE f env top a
    .error .unmodeled
  | f + 1, env, top, .call cf args => do
    let vf ← evalE f env top cf
    let vs ← evalArgs f env top args
    match vf with
    | .builtin b => applyB b vs
    | .closure ps body cenv =>
      if ps.length = vs.length then evalE f ((ps.zip vs) :: cenv) false body
      else .error .typeErr
    | _ => .error .typeErr

/-- Left-to-right evaluation of an argument list. -/
def evalArgs : ℕ → List (List (String × PyVal)) → Bool → List PExp → Except PyErr (List PyVal)
  | 0, _, _, _ => .error .noFuel
  | _ + 1, _, _, [] => .ok []
  | f + 1, env, top, a :: rest => do
    let v ← evalE f env top a
    let vs ← evalArgs f env top rest
    pure (v :: vs)

end

/-- "Direct evaluation under the allow-list bindings": what
`eval(code, {"__builtins__": {}}, SAFE_NAMES)` computes for the compiled
expression, with no pre-check. -/
def evalTop (fuel : ℕ) (e : PExp) : Except PyErr PyVal := evalE fuel [] true e

/-- The static pre-check of `safe_eval` (toolkit_cli.py:376-378): the first
name of the top-level code object not in `SAFE_NAMES`, if any. -/
def precheck (e : PExp) : Option String :=
  (coNames e).find? fun n => !(isSafeName n)

/-- `safe_eval` (toolkit_cli.py:373-379): compile (`SyntaxError` on
failure), reject the first `co_names` entry outside `SAFE_NAMES`
(`NameError`), then evaluate under the restricted environment. -/
def safeEval (fuel : ℕ) (s : String) : Except PyErr PyVal :=
  match parseExprS s with
  | .error _ => .error .synErr
  | .ok e =>
    match precheck e with
    | some n => .error (.nameErr n)
    | none => evalTop fuel e

/-- The backing file as `_load` observes it: absent, present but rejected
by `json.loads`, or present and parsed to a JSON value.  (Any on-disk text
is in exactly one of these three classes.) -/
inductive FileData where
  | absent
  | unparsable
  | parsed (v : PyVal)
  deriving Repr

mutual

/-- Values `json.dumps` accepts (and the only values `json.loads`
produces): numbers (including `inf`/`nan`, serialized as `Infinity`/`NaN`
by default), strings, booleans, `None`, and lists/dicts of such values.
Function objects and closures are not serializable (`TypeError`). -/
def jsonable : PyVal → Bool
  | .int _ => true
  | .float _ => true
  | .str _ => true
  | .bool _ => true
  | .pynone => true
  | .inf _ => true
  | .nan => true
  | .list l => jsonableL l
  | .dict d => jsonableD d
  | .builtin _ => false
  | .closure _ _ _ => false

/-- `jsonable` over list elements. -/
def jsonableL : List PyVal → Bool
  | [] => true
  | v :: vs => jsonable v && jsonableL vs

/-- `jsonable` over dict values. -/
def jsonableD : List (String × PyVal) → Bool
  | [] => true
  | p :: ps => jsonable p.2 && jsonableD ps

end

/-- Python subscription `h[i]` for a non-negative index: list element,
one-character string, `KeyError` for a dict (JSON object keys are strings,
so the integer key misses), `TypeError` otherwise. -/
def pyIndex (v : PyVal) (i : ℕ) : Except Unit PyVal :=
  match v with
  | .list l =>
    match l.get? i with
    | some x => .ok x
    | none => .error ()
  | .str s =>
    match s.data.get? i with
    | some c => .ok (.str (String.mk [c]))
    | none => .error ()
  | .dict _ => .error ()
  | _ => .error ()

/-- Python iteration `for h in raw`: list elements, characters of a string
(as one-character strings), keys of a dict; `TypeError` otherwise. -/
def pyIterate (v : PyVal) : Except Unit (List PyVal) :=
  match v with
  | .list l => .ok l
  | .str s => .ok (s.data.map fun c => .str (String.mk [c]))
  | .dict d => .ok (d.map fun p => .str p.1)
  | _ => .error ()

/-- The list comprehension `[(h[0], h[1]) for h in raw]`: per element,
subscription at 0 then 1; the first failure aborts the comprehension. -/
def decodeEntries : List PyVal → Except Unit (List (PyVal × PyVal))
  | [] => .ok []
  | h :: t => do
    let a ← pyIndex h 0
    let b ← pyIndex h 1
    let rest ← decodeEntries t
    pure ((a, b) :: rest)

/-- `Calculator._load` (toolkit_cli.py:387-395): absent file or any
exception while parsing/decoding yields the empty history; otherwise the
decoded entries. -/
def histLoad : FileData → List (PyVal × PyVal)
  | .absent => []
  | .unparsable => []
  | .parsed v =>
    match pyIterate v with
    | .error _ => []
    | .ok items =>
      match decodeEntries items with
      | .ok h => h
      | .error _ => []

/-- The JSON value `json.dumps(self.history, ...)` serializes: a list of
two-element lists (tuples dump as arrays). -/
def encodeHist (h : List (PyVal × PyVal)) : PyVal :=
  .list (h.map fun p => .list [p.1, p.2])

/-- Serializability of the whole history. -/
def serializableHist (h : List (PyVal × PyVal)) : Bool :=
  h.all fun p => jsonable p.1 && jsonable p.2

/-- The in-memory state of a `Calculator` instance: its history list and
its backing file. -/
structure CalcState where
  history : List (PyVal × PyVal)
  file : FileData

/-- Constructing a `Calculator` over a backing file (toolkit_cli.py:381-385):
load the history, leave the file untouched. -/
def Calculator.init (f : FileData) : CalcState :=
  { history := histLoad f, file := f }

/-- `Calculator._save` (toolkit_cli.py:397-398): `json.dumps` first
(`TypeError` if any entry is not serializable), then the file write, which
the environment may fail (`diskOk` false models a full disk or missing
permission: an `OSError`); on success the file is wholly overwritten. -/
def Calculator.save (diskOk : Bool) (s : CalcState) : Except PyErr CalcState :=
  if serializableHist s.history then
    if diskOk then .ok { s with file := .parsed (encodeHist s.history) }
    else .error .osErr
  else .error .typeErr

/-- `Calculator.eval` (toolkit_cli.py:400-404): run the evaluator; on its
failure the state is untouched and the error propagates.  On success the
entry is appended to the in-memory history first, then `_save` runs; a
save failure propagates with the entry still appended and the file
unchanged.  The pair is (result or error, state after the call). -/
def Calculator.eval (diskOk : Bool) (fuel : ℕ) (s : CalcState) (expr : String) :
    Except PyErr PyVal × CalcState :=
  match safeEval fuel expr with
  | .error err => (.error err, s)
  | .ok res =>
    let s1 : CalcState := { s with history := s.history ++ [(.str expr, res)] }
    match Calculator.save diskOk s1 with
    | .error err => (.error err, s1)
    | .ok s2 => (.ok res, s2)

/-- Python's slice `l[a:]` for an integer start `a`: drop `a` from the
front when `a ≥ 0`, else start at `max(0, len + a)`. -/
def pySliceFrom (l : List (PyVal × PyVal)) (a : ℤ) : List (PyVal × PyVal) :=
  if 0 ≤ a then l.drop a.toNat else l.drop (l.length - (-a).toNat)

/-- `Calculator.list` (toolkit_cli.py:406-407): `self.history[-n:]`. -/
def Calculator.recent (s : CalcState) (n : ℤ) : List (PyVal × PyVal) :=
  pySliceFrom s.history (-n)

/-- A sequence of `append` operations as `Calculator.eval` performs them on
success (toolkit_cli.py:402-403): append the entry to the in-memory list,
then `_save`; an error stops the run. -/
def runAppends : CalcState → List (String × PyVal) → Except PyErr CalcState
  | s, [] => .ok s
  | s, (e, r) :: rest => do
    let s2 ← Calculator.save true { s with history := s.history ++ [(.str e, r)] }
    runAppends s2 rest

/-- "A number" in the spec's sense: Python numeric values (`int`, `float`
— including the special floats — and `bool`). -/
def isNumber : PyVal → Bool
  | .int _ => true
  | .float _ => true
  | .bool _ => true
  | .inf _ => true
  | .nan => true
  | _ => false

/-- Modelled from the spec: the last `min(k, length)` entries of a history
in insertion order (`l.drop (l.length - k)`). -/
def lastEntries (l : List (PyVal × PyVal)) (k : ℕ) : List (PyVal × PyVal) :=
  l.drop (l.length - k)

/-- Modelled from the spec: the expected structure of the backing file
(section 6 of the spec): a list whose every element is a two-field record
`[expression: string, result: number]`. -/
def expectedShape : PyVal → Bool
  | .list l =>
    l.all fun h =>
      match h with
      | .list [.str _, r] => isNumber r
      | _ => false
  | _ => false

/-- Well-formed backing files: a parsed file holds a value `json.loads`
can actually produce. -/
def fileWF : FileData → Bool
  | .parsed v => jsonable v
  | _ => true

/-- C5, counterexample: the claim says `recent(0)` returns an empty
sequence, but `self.history[-n:]` with `n = 0` is `history[0:]`, the whole
list: on a one-entry history, `recent(0)` returns that entry. -/
theorem C5_counterexample :
    Calculator.recent ⟨[(.str "x", .int 1)], .absent⟩ 0 = [(.str "x", .int 1)] ∧
    [((PyVal.str "x"), (PyVal.int 1))] ≠ ([] : List (PyVal × PyVal)) :=
  ⟨rfl, by simp⟩

/-- C5 (amended): for every history and integer `k`, `recent(k)` returns
the last `min(k, n)` entries in insertion order when `k ≥ 1`; `recent(0)`
returns the whole history (Python's `[-0:]` slice); a negative `k` drops
the first `-k` entries instead.  The state is never mutated (`recent` is a
pure function of the state here, as the slice copies). -/
theorem C5_amended (s : CalcState) (k : ℤ) :
    (1 ≤ k → Calculator.recent s k = lastEntries s.history k.toNat) ∧
    Calculator.recent s 0 = s.history ∧
    (k ≤ 0 → Calculator.recent s k = s.history.drop (-k).toNat) ∧
    (lastEntries s.history k.toNat).length = min k.toNat s.history.length := by
  refine ⟨?_, ?_, ?_, ?_⟩
  · intro hk
    have h1 : ¬ (0 ≤ -k) := by omega
    simp [Calculator.recent, pySliceFrom, lastEntries, h1]
  · simp [Calculator.recent, pySliceFrom]
  · intro hk
    have h1 : (0 ≤ -k) := by omega
    simp [Calculator.recent, pySliceFrom, h1]
  · simp [lastEntries]
    omega

/-- C5, witness: `recent(1)` on a two-entry history is the last entry. -/
theorem C5_witness :
    Calculator.recent ⟨[(.str "a", .int 1), (.str "b", .int 2)], .absent⟩ 1 =
      lastEntries [((PyVal.str "a"), (PyVal.int 1)), ((PyVal.str "b"), (PyVal.int 2))] (1 : ℤ).toNat :=
  (C5_amended ⟨[(.str "a", .int 1), (.str "b", .int 2)], .absent⟩ 1).1 (by decide)

/-- C6, counterexample: the file content `["ab"]` is not the expected
structure (its element is a bare string, not a `[string, number]` record),
yet constructing the store over it does not yield an empty sequence: the
comprehension `[(h[0], h[1]) for h in raw]` indexes into the string and
loads the garbled entry `("a", "b")`. -/
theorem C6_counterexample :
    expectedShape (.list [.str "ab"]) = false ∧
    histLoad (.parsed (.list [.str "ab"])) = [(.str "a", .str "b")] ∧
    histLoad (.parsed (.list [.str "ab"])) ≠ [] := by
  have h2 : histLoad (.parsed (.list [.str "ab"])) = [(.str "a", .str "b")] := rfl
  exact ⟨rfl, h2, by rw [h2]; simp⟩

/-- C6 (amended): an absent backing file, a file `json.loads` rejects, and
any parsed content on which iteration or per-entry indexing raises all
yield an empty in-memory sequence with no error surfaced (the shared
try/except-reset pattern); but parseable wrong-shape content whose
elements support indexing at 0 and 1 (such as `["ab"]`) is silently loaded
as garbled entries instead of being reset. -/
theorem C6_amended (v : PyVal) (items : List PyVal) :
    histLoad .absent = [] ∧
    histLoad .unparsable = [] ∧
    (pyIterate v = .error () → histLoad (.parsed v) = []) ∧
    (pyIterate v = .ok items → decodeEntries items = .error () → histLoad (.parsed v) = []) ∧
    histLoad (.parsed (.list [.str "ab"])) = [(.str "a", .str "b")] := by
  refine ⟨rfl, rfl, ?_, ?_, rfl⟩
  · intro h
    simp [histLoad, h]
  · intro h1 h2
    simp [histLoad, h1, h2]

/-- C6, witness: a backing file holding the JSON string `"a"` (iterable,
but the one-character element fails indexing at 1) loads as empty. -/
theorem C6_witness : histLoad (.parsed (.str "a")) = [] :=
  (C6_amended (.str "a") [.str "a"]).2.2.2.1 rfl rfl

/-- C7: when the evaluator succeeds but the file write fails, the write
error is surfaced verbatim to the caller and the in-memory sequence still
contains the attempted entry (the mutation happens before the write
attempt; there is no rollback), while the file keeps its old content. -/
theorem C7_write_failure (fuel : ℕ) (s : CalcState) (expr : String) (v : PyVal)
    (hok : safeEval fuel expr = .ok v)
    (hser : serializableHist (s.history ++ [(.str expr, v)]) = true) :
    Calculator.eval false fuel s expr =
      (.error .osErr, { history := s.history ++ [(.str expr, v)], file := s.file }) ∧
    (.str expr, v) ∈ s.history ++ [(.str expr, v)] := by
  constructor
  · simp [Calculator.eval, hok, Calculator.save, hser]
  · simp

/-- C7, witness: evaluating `2+3` over a failing disk surfaces the write
error and leaves `("2+3", 5)` in memory. -/
theorem C7_witness :
    Calculator.eval false 9 (Calculator.init .absent) "2+3" =
      (.error .osErr,
       { history := (Calculator.init .absent).history ++ [(.str "2+3", .int 5)],
         file := (Calculator.init .absent).file }) ∧
    (PyVal.str "2+3", PyVal.int 5) ∈
      (Calculator.init .absent).history ++ [(.str "2+3", .int 5)] :=
  C7_write_failure 9 (Calculator.init .absent) "2+3" (.int 5) rfl rfl

/-- C1, counterexample: `lambda: foobar` references the non-allow-listed
identifier `foobar` in its parsed tree, yet the static pre-check misses it
(`foobar` lives in the nested code object, not in the top-level
`co_names`), the evaluator succeeds with a function value, and
`Calculator.eval` then modifies the history and fails with a
serialization `TypeError` — not a `NameError`, and not before evaluation. -/
theorem C1_counterexample :
    parseExprS "lambda: foobar" = .ok (.lam [] (.name "foobar")) ∧
    "foobar" ∈ treeNames (.lam [] (.name "foobar")) ∧
    isSafeName "foobar" = false ∧
    precheck (.lam [] (.name "foobar")) = none ∧
    safeEval 9 "lambda: foobar" = .ok (.closure [] (.name "foobar") []) ∧
    Calculator.eval true 9 (Calculator.init .absent) "lambda: foobar" =
      (.error .typeErr,
       { history := [(.str "lambda: foobar", .closure [] (.name "foobar") [])],
         file := .absent }) := by
  refine ⟨rfl, ?_, rfl, rfl, rfl, rfl⟩
  simp [treeNames]

/-- C1 (amended): for every expression whose top-level code object
(outside lambda bodies) references an identifier not in the allow-list,
`Calculator.eval` fails with a `NameError` naming the first such
identifier; the failure comes from the static pre-check before any
evaluation (it holds for every fuel, including zero), and the history is
unchanged.  Identifiers occurring only inside lambda bodies escape this
pre-check. -/
theorem C1_amended (diskOk : Bool) (fuel : ℕ) (s : CalcState) (expr : String)
    (e : PExp) (n : String)
    (hp : parseExprS expr = .ok e)
    (hc : precheck e = some n) :
    safeEval fuel expr = .error (.nameErr n) ∧
    Calculator.eval diskOk fuel s expr = (.error (.nameErr n), s) ∧
    n ∈ coNames e ∧ isSafeName n = false := by
  have h1 : safeEval fuel expr = .error (.nameErr n) := by
    simp [safeEval, hp, hc]
  have hc2 : (coNames e).find? (fun m => !(isSafeName m)) = some n := hc
  have hp1 : isSafeName n = false := by simpa using List.find?_some hc2
  have hmem : n ∈ coNames e := List.mem_of_find?_eq_some hc2
  refine ⟨h1, ?_, hmem, hp1⟩
  simp [Calculator.eval, h1]

/-- C1, witness: `foobar + 1` fails with `NameError("foobar")` at fuel 0
(no evaluation at all) and the state is untouched. -/
theorem C1_witness :
    safeEval 0 "foobar + 1" = .error (.nameErr "foobar") ∧
    Calculator.eval true 0 (Calculator.init .absent) "foobar + 1" =
      (.error (.nameErr "foobar"), Calculator.init .absent) ∧
    "foobar" ∈ coNames (.binop .add (.name "foobar") (.num 1)) ∧
    isSafeName "foobar" = false :=
  C1_amended true 0 (Calculator.init .absent) "foobar + 1"
    (.binop .add (.name "foobar") (.num 1)) "foobar" rfl rfl

/-- C2, counterexample: the claim says parsing admits no attribute/member
access, but eval-mode compilation accepts full Python expression syntax:
`a.b` parses, and `safe_eval` on it fails with a `NameError` from the
pre-check, not a `SyntaxError`-kind error. -/
theorem C2_counterexample :
    parseExprS "a.b" = .ok (.attr (.name "a") "b") ∧
    safeEval 9 "a.b" = .error (.nameErr "a") ∧
    PyErr.nameErr "a" ≠ PyErr.synErr := by
  refine ⟨rfl, rfl, by decide⟩

/-- C2 (amended): eval-mode parsing admits full Python expression syntax —
attribute access (`a.b`) and lambda abstractions parse — while statements
(assignments such as `x = 5`, imports such as `import math`) are not
expressions and fail; every input the parser rejects makes `safe_eval`
fail with the `SyntaxError`-kind error; parsed non-arithmetic constructs
are instead screened by the name pre-check (`a.b` draws a `NameError`). -/
theorem C2_amended (fuel : ℕ) (s : String) (h : parseExprS s = .error ()) :
    safeEval fuel s = .error .synErr ∧
    parseExprS "a.b" = .ok (.attr (.name "a") "b") ∧
    parseExprS "lambda x: x" = .ok (.lam ["x"] (.name "x")) ∧
    parseExprS "x = 5" = .error () ∧
    parseExprS "import math" = .error () ∧
    safeEval 9 "a.b" = .error (.nameErr "a") := by
  refine ⟨?_, rfl, rfl, rfl, rfl, rfl⟩
  simp [safeEval, h]

/-- C2, witness: the assignment statement `x = 5` does not parse and
`safe_eval` reports the syntax error. -/
theorem C2_witness :
    safeEval 3 "x = 5" = .error .synErr :=
  (C2_amended 3 "x = 5" rfl).1

mutual

/-- Every name of the top-level code object is referenced somewhere in the
tree. -/
theorem coNames_sub : (e : PExp) → (n : String) → n ∈ coNames e → n ∈ treeNames e
  | .num _, _, h => absurd h (by simp [coNames])
  | .fnum _, _, h => absurd h (by simp [coNames])
  | .name s, n, h => by simpa [coNames, treeNames] using h
  | .unop u a, n, h => by
    simp only [coNames] at h
    simpa [treeNames] using coNames_sub a n h
  | .binop o a b, n, h => by
    simp only [coNames, List.mem_append] at h
    rcases h with h | h
    · simp [treeNames, List.mem_append, coNames_sub a n h]
    · simp [treeNames, List.mem_append, coNames_sub b n h]
  | .call f args, n, h => by
    simp only [coNames, List.mem_append] at h
    rcases h with h | h
    · simp [treeNames, List.mem_append, coNames_sub f n h]
    · simp [treeNames, List.mem_append, coNamesL_sub args n h]
  | .attr a fld, n, h => by
    simp only [coNames, List.mem_append] at h
    rcases h with h | h
    · simp [treeNames, List.mem_append, coNames_sub a n h]
    · simp only [List.mem_singleton] at h
      simp [treeNames, List.mem_append, h]
  | .lam ps b, _, h => absurd h (by simp [coNames])

/-- `coNames_sub` over an argument list. -/
theorem coNamesL_sub : (l : List PExp) → (n : String) → n ∈ coNamesL l → n ∈ treeNamesL l
  | [], _, h => absurd h (by simp [coNamesL])
  | e :: es, n, h => by
    simp only [coNamesL, List.mem_append] at h
    rcases h with h | h
    · simp [treeNamesL, List.mem_append, coNames_sub e n h]
    · simp [treeNamesL, List.mem_append, coNamesL_sub es n h]

end

/-- If every `co_names` entry is allow-listed, the pre-check passes. -/
theorem precheck_none (e : PExp) (h : ∀ n ∈ coNames e, isSafeName n = true) :
    precheck e = none := by
  apply List.find?_eq_none.mpr
  intro x hx
  simp [h x hx]

/-- C3, counterexample: the bare expression `min` has valid syntax and
references only allow-listed names, yet the evaluator returns the builtin
function object — not a number — so "evaluate returns a number" fails on
it. -/
theorem C3_counterexample :
    parseExprS "min" = .ok (.name "min") ∧
    (∀ n ∈ treeNames (.name "min"), isSafeName n = true) ∧
    safeEval 9 "min" = .ok (.builtin .bmin) ∧
    isNumber (.builtin .bmin) = false := by
  refine ⟨rfl, ?_, rfl, rfl⟩
  intro n hn
  simp [treeNames] at hn
  subst hn
  decide

set_option maxRecDepth 4000 in
/-- C3 (amended): for every expression with valid syntax referencing only
allow-listed names, `safe_eval` returns exactly the value of direct
evaluation of the compiled expression under the allow-list bindings (the
pre-check passes and changes nothing); that value is a number whenever the
direct evaluation produces one, and in particular
`evaluate("min(10, round(3.6))") = 4`, `evaluate("2+3") = 5`,
`evaluate("abs(-10)") = 10`. -/
theorem C3_amended (fuel : ℕ) (s : String) (e : PExp)
    (hp : parseExprS s = .ok e)
    (hsafe : ∀ n ∈ treeNames e, isSafeName n = true) :
    safeEval fuel s = evalTop fuel e ∧
    safeEval 9 "min(10, round(3.6))" = .ok (.int 4) ∧
    safeEval 9 "2+3" = .ok (.int 5) ∧
    safeEval 9 "abs(-10)" = .ok (.int 10) := by
  have hpc : precheck e = none :=
    precheck_none e fun n hn => hsafe n (coNames_sub e n hn)
  refine ⟨?_, by with_unfolding_all rfl, rfl, rfl⟩
  simp [safeEval, hp, hpc, evalTop]

/-- C3, witness: `2+3` evaluates to the direct evaluation of the compiled
tree, which is the number 5. -/
theorem C3_witness :
    safeEval 7 "2+3" = evalTop 7 (.binop .add (.num 2) (.num 3)) ∧
    safeEval 9 "min(10, round(3.6))" = .ok (.int 4) ∧
    safeEval 9 "2+3" = .ok (.int 5) ∧
    safeEval 9 "abs(-10)" = .ok (.int 10) :=
  C3_amended 7 "2+3" (.binop .add (.num 2) (.num 3)) rfl (by decide)

/-- C4, counterexample: on `"min"` the evaluator succeeds (with the builtin
function object), but `Calculator.eval` does not persist the sequence and
does not return the result: the entry is appended in memory, `_save`
raises the serialization `TypeError`, and the file keeps its old
content. -/
theorem C4_counterexample :
    safeEval 9 "min" = .ok (.builtin .bmin) ∧
    Calculator.eval true 9 (Calculator.init .absent) "min" =
      (.error .typeErr, { history := [(.str "min", .builtin .bmin)], file := .absent }) ∧
    (Calculator.eval true 9 (Calculator.init .absent) "min").1 ≠ .ok (.builtin .bmin) := by
  have h2 : Calculator.eval true 9 (Calculator.init .absent) "min" =
      (.error .typeErr, { history := [(.str "min", .builtin .bmin)], file := .absent }) := rfl
  refine ⟨rfl, h2, ?_⟩
  rw [h2]
  simp

/-- C4 (amended): on evaluator failure `Calculator.eval` leaves the state
untouched and propagates the failure unchanged; on evaluator success it
appends exactly one entry `(expression, result)` to the in-memory history
and then persists the full sequence by complete overwrite and returns the
result — provided the sequence serializes and the write succeeds;
otherwise the save error propagates with the entry still appended and the
file unchanged. -/
theorem C4_amended (diskOk : Bool) (fuel : ℕ) (s : CalcState) (expr : String) :
    (∀ err, safeEval fuel expr = .error err →
      Calculator.eval diskOk fuel s expr = (.error err, s)) ∧
    (∀ v, safeEval fuel expr = .ok v →
      (serializableHist (s.history ++ [(.str expr, v)]) = true → diskOk = true →
        Calculator.eval diskOk fuel s expr =
          (.ok v, { history := s.history ++ [(.str expr, v)],
                    file := .parsed (encodeHist (s.history ++ [(.str expr, v)])) })) ∧
      (serializableHist (s.history ++ [(.str expr, v)]) = true → diskOk = false →
        Calculator.eval diskOk fuel s expr =
          (.error .osErr, { history := s.history ++ [(.str expr, v)], file := s.file })) ∧
      (serializableHist (s.history ++ [(.str expr, v)]) = false →
        Calculator.eval diskOk fuel s expr =
          (.error .typeErr, { history := s.history ++ [(.str expr, v)], file := s.file }))) := by
  constructor
  · intro err h
    simp [Calculator.eval, h]
  · intro v hv
    refine ⟨?_, ?_, ?_⟩
    · intro hser hd
      subst hd
      simp [Calculator.eval, hv, Calculator.save, hser]
    · intro hser hd
      subst hd
      simp [Calculator.eval, hv, Calculator.save, hser]
    · intro hser
      simp [Calculator.eval, hv, Calculator.save, hser]

/-- C4, witness: `2+3` on a fresh store appends `("2+3", 5)`, overwrites
the file with the full sequence, and returns 5. -/
theorem C4_witness :
    Calculator.eval true 9 (Calculator.init .absent) "2+3" =
      (.ok (.int 5),
       { history := (Calculator.init .absent).history ++ [(.str "2+3", .int 5)],
         file := .parsed (encodeHist
           ((Calculator.init .absent).history ++ [(.str "2+3", .int 5)])) }) :=
  ((C4_amended true 9 (Calculator.init .absent) "2+3").2 (.int 5) rfl).1 rfl rfl

/-- C9, counterexample: `__builtins__` is not in the allow-list and, placed
inside a lambda body, escapes the static pre-check; yet name resolution
does not fail — the globals dict of the `eval` call binds `__builtins__`
to the empty dict, so the expression evaluates successfully to `{}`. -/
theorem C9_counterexample :
    parseExprS "(lambda: __builtins__)()" =
      .ok (.call (.lam [] (.name "__builtins__")) []) ∧
    isSafeName "__builtins__" = false ∧
    precheck (.call (.lam [] (.name "__builtins__")) []) = none ∧
    safeEval 9 "(lambda: __builtins__)()" = .ok (.dict []) :=
  ⟨rfl, rfl, rfl, rfl⟩

/-- C9 (amended): evaluation runs with a globals mapping whose only entry
binds `__builtins__` to an empty dict; inside a lambda body every free
identifier that is not a parameter and not `__builtins__` fails with a
`NameError` at evaluation time — whether allow-listed or not, since the
locals dict `SAFE_NAMES` is not a function scope (`(lambda: sin)()` fails
too) — while `__builtins__` itself resolves to the empty dict; at the top
level every non-allow-listed name other than `__builtins__` likewise
fails; no builtin outside the allow-list is reachable. -/
theorem C9_amended (env : List (List (String × PyVal))) (n : String)
    (h : lookupChain env n = none) :
    (n ≠ "__builtins__" → lookupFnName env n = .error (.nameErr n)) ∧
    (n = "__builtins__" → lookupFnName env n = .ok (.dict [])) ∧
    (∀ m, isSafeName m = false → m ≠ "__builtins__" →
      lookupTopName m = .error (.nameErr m)) ∧
    safeEval 9 "(lambda: sin)()" = .error (.nameErr "sin") ∧
    safeEval 9 "(lambda: __builtins__)()" = .ok (.dict []) := by
  refine ⟨?_, ?_, ?_, rfl, rfl⟩
  · intro hne
    simp [lookupFnName, h, globalFallback, hne]
  · intro he
    subst he
    simp [lookupFnName, h, globalFallback]
  · intro m hm hne
    cases hs : safeLookup m with
    | some v => simp [isSafeName, hs] at hm
    | none => simp [lookupTopName, hs, globalFallback, hne]

/-- C9, witness: the free name `sin` inside a lambda body resolves through
the empty global environment and fails with `NameError`. -/
theorem C9_witness :
    lookupFnName [] "sin" = .error (.nameErr "sin") :=
  (C9_amended [] "sin" rfl).1 (by decide)

/-- A history containing a non-serializable entry fails serialization. -/
theorem serializableHist_false_of_mem (h : List (PyVal × PyVal)) (p : PyVal × PyVal)
    (hp : p ∈ h) (hbad : (jsonable p.1 && jsonable p.2) = false) :
    serializableHist h = false := by
  cases hall : serializableHist h with
  | false => rfl
  | true =>
    rw [serializableHist, List.all_eq_true] at hall
    have h2 := hall p hp
    rw [hbad] at h2
    exact absurd h2 (by simp)

/-- A successful `_save` only changes the file, never the history. -/
theorem save_ok_history (d : Bool) (s s2 : CalcState)
    (h : Calculator.save d s = .ok s2) : s2.history = s.history := by
  unfold Calculator.save at h
  split_ifs at h
  cases h
  rfl

/-- `Calculator.eval` never removes history entries. -/
theorem calcEval_mem_mono (d : Bool) (fuel : ℕ) (s : CalcState) (expr : String)
    (p : PyVal × PyVal) (hp : p ∈ s.history) :
    p ∈ (Calculator.eval d fuel s expr).2.history := by
  unfold Calculator.eval
  cases hse : safeEval fuel expr with
  | error err => simpa using hp
  | ok v =>
    simp only
    cases hsv : Calculator.save d { s with history := s.history ++ [(.str expr, v)] } with
    | error e2 =>
      simp only
      exact List.mem_append_left _ hp
    | ok s2 =>
      simp only
      rw [save_ok_history d _ s2 hsv]
      exact List.mem_append_left _ hp

/-- C10: on the fully allow-listed, syntactically valid input `min` the
evaluator succeeds with a non-numeric value (the builtin function object);
`Calculator.eval` appends this entry to the in-memory history before
saving, the save raises a serialization `TypeError` that propagates to the
caller, and since the non-serializable entry stays in memory — later
`eval` calls only append — every subsequent save of the same store
instance fails too. -/
theorem C10_nonserializable_result (d d2 : Bool) (fuel : ℕ) (s : CalcState) (expr : String)
    (hmem : (.str "min", .builtin .bmin) ∈ s.history) :
    safeEval 9 "min" = .ok (.builtin .bmin) ∧
    isNumber (.builtin .bmin) = false ∧
    Calculator.eval true 9 (Calculator.init .absent) "min" =
      (.error .typeErr,
       { history := [(.str "min", .builtin .bmin)], file := .absent }) ∧
    Calculator.save d s = .error .typeErr ∧
    (.str "min", .builtin .bmin) ∈ (Calculator.eval d2 fuel s expr).2.history := by
  have hser : serializableHist s.history = false :=
    serializableHist_false_of_mem s.history _ hmem rfl
  refine ⟨rfl, rfl, rfl, ?_, calcEval_mem_mono d2 fuel s expr _ hmem⟩
  simp [Calculator.save, hser]

/-- C10, witness: after evaluating `min` on a fresh store, the poisoned
instance's saves keep failing, also after a later `2+2` call. -/
theorem C10_witness :
    safeEval 9 "min" = .ok (.builtin .bmin) ∧
    isNumber (.builtin .bmin) = false ∧
    Calculator.eval true 9 (Calculator.init .absent) "min" =
      (.error .typeErr,
       { history := [(.str "min", .builtin .bmin)], file := .absent }) ∧
    Calculator.save true ⟨[(.str "min", .builtin .bmin)], .absent⟩ = .error .typeErr ∧
    (.str "min", .builtin .bmin) ∈
      (Calculator.eval true 9 ⟨[(.str "min", .builtin .bmin)], .absent⟩ "2+2").2.history :=
  C10_nonserializable_result true true 9 ⟨[(.str "min", .builtin .bmin)], .absent⟩ "2+2"
    (by simp)

/-- Elements of a jsonable list are jsonable. -/
theorem jsonableL_mem : ∀ (l : List PyVal), jsonableL l = true →
    ∀ x ∈ l, jsonable x = true
  | [], _, x, hx => absurd hx (by simp)
  | v :: vs, hj, x, hx => by
    rw [jsonableL, Bool.and_eq_true] at hj
    rcases List.mem_cons.mp hx with h | h
    · rw [h]; exact hj.1
    · exact jsonableL_mem vs hj.2 x h

/-- A list of string values is jsonable. -/
theorem jsonableL_map_str {α : Type} (f : α → String) :
    ∀ (l : List α), jsonableL (l.map fun a => PyVal.str (f a)) = true
  | [] => rfl
  | a :: rest => by
    rw [List.map_cons, jsonableL, Bool.and_eq_true]
    exact ⟨rfl, jsonableL_map_str f rest⟩

/-- Iterating a jsonable value yields jsonable items. -/
theorem pyIterate_jsonable (v : PyVal) (hv : jsonable v = true)
    (items : List PyVal) (hit : pyIterate v = .ok items) : jsonableL items = true := by
  cases v with
  | list l =>
    cases hit
    rw [jsonable] at hv
    exact hv
  | str s =>
    cases hit
    exact jsonableL_map_str _ s.data
  | dict d =>
    cases hit
    exact jsonableL_map_str _ d
  | int n => cases hit
  | float q => cases hit
  | bool b => cases hit
  | pynone => cases hit
  | inf b => cases hit
  | nan => cases hit
  | builtin b => cases hit
  | closure a b c => cases hit

/-- Subscription into a jsonable value yields a jsonable value. -/
theorem pyIndex_jsonable (v : PyVal) (hv : jsonable v = true)
    (i : ℕ) (x : PyVal) (hix : pyIndex v i = .ok x) : jsonable x = true := by
  cases v with
  | list l =>
    rw [jsonable] at hv
    rw [pyIndex] at hix
    cases hg : l.get? i with
    | none => rw [hg] at hix; cases hix
    | some y =>
      rw [hg] at hix
      cases hix
      exact jsonableL_mem l hv x (List.get?_mem hg)
  | str s =>
    rw [pyIndex] at hix
    cases hg : s.data.get? i with
    | none => rw [hg] at hix; cases hix
    | some c => rw [hg] at hix; cases hix; rfl
  | dict d => cases hix
  | int n => cases hix
  | float q => cases hix
  | bool b => cases hix
  | pynone => cases hix
  | inf b => cases hix
  | nan => cases hix
  | builtin b => cases hix
  | closure a b c => cases hix

/-- Decoding jsonable items yields a serializable history. -/
theorem decodeEntries_jsonable : ∀ (items : List PyVal), jsonableL items = true →
    ∀ h, decodeEntries items = .ok h → serializableHist h = true
  | [], _, h, hd => by cases hd; rfl
  | i :: t, hj, h, hd => by
    rw [jsonableL, Bool.and_eq_true] at hj
    rw [decodeEntries] at hd
    cases h0 : pyIndex i 0 with
    | error e => rw [h0] at hd; cases hd
    | ok a =>
      rw [h0] at hd
      cases h1 : pyIndex i 1 with
      | error e => rw [h1] at hd; cases hd
      | ok b =>
        rw [h1] at hd
        cases h2 : decodeEntries t with
        | error e => rw [h2] at hd; cases hd
        | ok rest =>
          rw [h2] at hd
          cases hd
          rw [serializableHist, List.all_cons, Bool.and_eq_true]
          constructor
          · rw [Bool.and_eq_true]
            exact ⟨pyIndex_jsonable i hj.1 0 a h0, pyIndex_jsonable i hj.1 1 b h1⟩
          · exact decodeEntries_jsonable t hj.2 rest h2

/-- Loading a well-formed backing file yields a serializable history. -/
theorem histLoad_serializable (f : FileData) (hwf : fileWF f = true) :
    serializableHist (histLoad f) = true := by
  cases f with
  | absent => rfl
  | unparsable => rfl
  | parsed v =>
    rw [fileWF] at hwf
    rw [histLoad]
    cases hit : pyIterate v with
    | error e => rfl
    | ok items =>
      cases hd : decodeEntries items with
      | error e => simp [hd, serializableHist]
      | ok h =>
        simp only [hd]
        exact decodeEntries_jsonable items (pyIterate_jsonable v hwf items hit) h hd

/-- Decoding the encoded history recovers it exactly. -/
theorem decodeEntries_encode : ∀ (h : List (PyVal × PyVal)),
    decodeEntries (h.map fun p => .list [p.1, p.2]) = .ok h
  | [] => rfl
  | p :: rest => by
    rw [List.map_cons, decodeEntries]
    have hi0 : pyIndex (.list [p.1, p.2]) 0 = .ok p.1 := rfl
    have hi1 : pyIndex (.list [p.1, p.2]) 1 = .ok p.2 := rfl
    rw [hi0, hi1, decodeEntries_encode rest]
    rfl

/-- Loading the file written by `_save` recovers the saved history. -/
theorem histLoad_encode (h : List (PyVal × PyVal)) :
    histLoad (.parsed (encodeHist h)) = h := by
  simp [histLoad, encodeHist, pyIterate, decodeEntries_encode h]

/-- `_save` over a working disk succeeds on a serializable history and
overwrites the file with the encoded history. -/
theorem save_ok_of_serializable (s : CalcState)
    (hser : serializableHist s.history = true) :
    Calculator.save true s = .ok { s with file := .parsed (encodeHist s.history) } := by
  simp [Calculator.save, hser]

/-- Numbers are serializable. -/
theorem isNumber_jsonable (v : PyVal) (hv : isNumber v = true) : jsonable v = true := by
  cases v <;> simp_all [isNumber, jsonable]

/-- Invariant of the append loop: the history stays serializable and the
file always reloads to the in-memory history. -/
theorem runAppends_inv : ∀ (entries : List (String × PyVal)) (s : CalcState),
    serializableHist s.history = true →
    histLoad s.file = s.history →
    entries.all (fun p => isNumber p.2) = true →
    ∀ s2, runAppends s entries = .ok s2 →
    serializableHist s2.history = true ∧ histLoad s2.file = s2.history
  | [], s, hs, hf, _, s2, hr => by
    cases hr
    exact ⟨hs, hf⟩
  | (e, r) :: rest, s, hs, hf, hnum, s2, hr => by
    rw [List.all_cons, Bool.and_eq_true] at hnum
    have hser : serializableHist (s.history ++ [(.str e, r)]) = true := by
      rw [serializableHist, List.all_append, Bool.and_eq_true]
      refine ⟨hs, ?_⟩
      simp [jsonable, isNumber_jsonable r hnum.1]
    rw [runAppends] at hr
    rw [save_ok_of_serializable { s with history := s.history ++ [(.str e, r)] } hser] at hr
    have hstep := runAppends_inv rest
      { history := s.history ++ [(.str e, r)],
        file := .parsed (encodeHist (s.history ++ [(.str e, r)])) }
      hser (histLoad_encode _) hnum.2 s2
    exact hstep (by simpa using hr)

/-- C8: for every well-formed backing file and every sequence of
(string, number) entries appended through a store instance, constructing a
fresh instance over the resulting file yields an in-memory sequence
identical in content and order to the one held before discarding. -/
theorem C8_roundtrip (f0 : FileData) (entries : List (String × PyVal)) (s2 : CalcState)
    (hwf : fileWF f0 = true)
    (hnum : entries.all (fun p => isNumber p.2) = true)
    (hrun : runAppends (Calculator.init f0) entries = .ok s2) :
    (Calculator.init s2.file).history = s2.history := by
  have base1 : serializableHist (Calculator.init f0).history = true :=
    histLoad_serializable f0 hwf
  have base2 : histLoad (Calculator.init f0).file = (Calculator.init f0).history := rfl
  exact (runAppends_inv entries (Calculator.init f0) base1 base2 hnum s2 hrun).2

/-- C8, witness: appending `("2+3", 5)` to a fresh store and reloading the
file yields the same single-entry history. -/
theorem C8_witness :
    (Calculator.init (FileData.parsed (encodeHist [(.str "2+3", .int 5)]))).history =
      [(PyVal.str "2+3", PyVal.int 5)] :=
  C8_roundtrip .absent [("2+3", .int 5)]
    { history := [(.str "2+3", .int 5)],
      file := .parsed (encodeHist [(.str "2+3", .int 5)]) }
    rfl rfl rfl
